import Mathlib

/-!
Verification of the dexxt webhook transliteration handler.

The Go source (`api/index.go`) is embedded shallowly:

* Go strings are indexed byte-wise (`finglish[i]` is a byte), so the
  transliteration scan works on `List Nat`, each element a byte value < 256.
* Go's conversion `string(b)` of an integral byte `b` produces the UTF-8
  encoding of the code point `b` (one byte for `b < 0x80`, two bytes
  otherwise); `goByteToString` reproduces this exactly.
* The HTTP collaborators (the remote transliteration service and the
  Telegram send-message endpoint) are modelled as an oracle environment
  `RemoteEnv`, and the outbound calls a handler run performs are recorded
  as an explicit `Effect` trace.
-/

/-- UTF-8 encoding of one unicode scalar value, as a list of byte values. -/
def utf8Bytes (c : Char) : List Nat :=
  let n := c.toNat
  if n < 0x80 then [n]
  else if n < 0x800 then [0xC0 + n / 64, 0x80 + n % 64]
  else if n < 0x10000 then [0xE0 + n / 4096, 0x80 + n / 64 % 64, 0x80 + n % 64]
  else [0xF0 + n / 262144, 0x80 + n / 4096 % 64, 0x80 + n / 64 % 64, 0x80 + n % 64]

/-- The byte sequence of a string: what Go sees when it indexes a string. -/
def strBytes (s : String) : List Nat :=
  (s.data.map utf8Bytes).flatten

/-- Go's conversion `string(b)` for a byte value `b < 256`: the byte is
interpreted as a rune (code point) and re-encoded in UTF-8.  This is the
conversion the `default` arm of `getFarsi` and the return of `peekChar`
perform via `string(finglish[i])` / `string(str[index+1])`. -/
def goByteToString (b : Nat) : List Nat :=
  if b < 0x80 then [b] else [0xC0 + b / 64, 0x80 + b % 64]

/-- `peekChar` from `api/index.go`: the next byte of the string as a Go
string if it exists, and the empty string otherwise.  The read is guarded
by the bound check, exactly as in the source. -/
def peekChar (index : Nat) (str : List Nat) : List Nat :=
  if h : index + 1 < str.length then goByteToString (str.get ⟨index + 1, h⟩) else []

/-- The body of `getFarsi`'s scanning loop from `api/index.go`, cursor at
byte position `i`.  The unchecked read `finglish[i]` (guarded only by the
loop condition `i < len(finglish)`) is modelled with optional indexing:
a read that misses yields `none` and aborts the scan.  Digraph arms that
see a following `h` advance the cursor by 2 (`i++` in the arm plus the
loop's `i++`); the silent arm for `e` emits nothing; the default arm
re-encodes the byte via Go's `string(b)` conversion. -/
def getFarsiAux (s : List Nat) (i : Nat) : Option (List Nat) :=
  if h : i < s.length then
    match s[i]? with
    | none => none
    | some c =>
      if c = 97 then (getFarsiAux s (i + 1)).map (fun r => strBytes "ا" ++ r)
      else if c = 98 then (getFarsiAux s (i + 1)).map (fun r => strBytes "ب" ++ r)
      else if c = 99 then
        if peekChar i s = strBytes "h" then
          (getFarsiAux s (i + 2)).map (fun r => strBytes "چ" ++ r)
        else (getFarsiAux s (i + 1)).map (fun r => strBytes "س" ++ r)
      else if c = 100 then (getFarsiAux s (i + 1)).map (fun r => strBytes "د" ++ r)
      else if c = 101 then getFarsiAux s (i + 1)
      else if c = 102 then (getFarsiAux s (i + 1)).map (fun r => strBytes "ف" ++ r)
      else if c = 103 then
        if peekChar i s = strBytes "h" then
          (getFarsiAux s (i + 2)).map (fun r => strBytes "غ" ++ r)
        else (getFarsiAux s (i + 1)).map (fun r => strBytes "گ" ++ r)
      else if c = 104 then (getFarsiAux s (i + 1)).map (fun r => strBytes "ه" ++ r)
      else if c = 105 then (getFarsiAux s (i + 1)).map (fun r => strBytes "ی" ++ r)
      else if c = 106 then (getFarsiAux s (i + 1)).map (fun r => strBytes "ج" ++ r)
      else if c = 107 then
        if peekChar i s = strBytes "h" then
          (getFarsiAux s (i + 2)).map (fun r => strBytes "خ" ++ r)
        else (getFarsiAux s (i + 1)).map (fun r => strBytes "ک" ++ r)
      else if c = 108 then (getFarsiAux s (i + 1)).map (fun r => strBytes "ل" ++ r)
      else if c = 109 then (getFarsiAux s (i + 1)).map (fun r => strBytes "م" ++ r)
      else if c = 110 then (getFarsiAux s (i + 1)).map (fun r => strBytes "ن" ++ r)
      else if c = 111 then (getFarsiAux s (i + 1)).map (fun r => strBytes "و" ++ r)
      else if c = 112 then (getFarsiAux s (i + 1)).map (fun r => strBytes "پ" ++ r)
      else if c = 113 then (getFarsiAux s (i + 1)).map (fun r => strBytes "ک" ++ r)
      else if c = 114 then (getFarsiAux s (i + 1)).map (fun r => strBytes "ر" ++ r)
      else if c = 115 then
        if peekChar i s = strBytes "h" then
          (getFarsiAux s (i + 2)).map (fun r => strBytes "ش" ++ r)
        else (getFarsiAux s (i + 1)).map (fun r => strBytes "س" ++ r)
      else if c = 116 then (getFarsiAux s (i + 1)).map (fun r => strBytes "ت" ++ r)
      else if c = 117 then (getFarsiAux s (i + 1)).map (fun r => strBytes "و" ++ r)
      else if c = 118 then (getFarsiAux s (i + 1)).map (fun r => strBytes "و" ++ r)
      else if c = 119 then (getFarsiAux s (i + 1)).map (fun r => strBytes "و" ++ r)
      else if c = 120 then (getFarsiAux s (i + 1)).map (fun r => strBytes "خ" ++ r)
      else if c = 121 then (getFarsiAux s (i + 1)).map (fun r => strBytes "ی" ++ r)
      else if c = 122 then (getFarsiAux s (i + 1)).map (fun r => strBytes "ز" ++ r)
      else (getFarsiAux s (i + 1)).map (fun r => goByteToString c ++ r)
  else some []
termination_by s.length - i
decreasing_by all_goals omega

/-- `getFarsi` from `api/index.go`: run the scan from position 0. -/
def getFarsi (finglish : List Nat) : List Nat :=
  (getFarsiAux finglish 0).getD []

/-- `chat` from `api/index.go`: the conversation a message belongs to. -/
structure Chat where
  ID : Int
deriving DecidableEq

/-- `audio` from `api/index.go`. -/
structure Audio where
  FileId : String
  Duration : Int
deriving DecidableEq

/-- `voice` from `api/index.go` (`type voice audio`). -/
abbrev Voice := Audio

/-- `document` from `api/index.go`. -/
structure Document where
  FileId : String
  FileName : String
deriving DecidableEq

/-- `message` from `api/index.go`. -/
structure Message where
  Text : String
  Chat : Chat
  Audio : Audio
  Voice : Voice
  Document : Document
deriving DecidableEq

/-- `update` from `api/index.go`: one webhook event. -/
structure Update where
  UpdateId : Int
  Message : Message
deriving DecidableEq

/-- ASCII lowering of one character, the character-wise action of Go's
`strings.ToLower` (which agrees with this on ASCII text; its additional
non-ASCII case mappings are outside the table's domain). -/
def lowerChar (c : Char) : Char :=
  if h : 65 ≤ c.toNat ∧ c.toNat ≤ 90 then
    Char.ofNatAux (c.toNat + 32) (Or.inl (by omega)) else c

/-- Models `strings.ToLower` as used in `Handler` (ASCII case-folding). -/
def goToLower (s : String) : String :=
  ⟨s.data.map lowerChar⟩

/-- Outcomes of the two network collaborators of `sendToClient`, fixed per
run: `getFarsiAPIResult t` is what the remote transliteration call returns
for input `t` (`Except.error` covering request-creation, transport, read
and JSON-decode failures), and `postResult id t` is what posting `t` to
chat `id` via the Telegram API yields (`Except.error` covering transport
and body-read failures, `Except.ok` the response body read). -/
structure RemoteEnv where
  getFarsiAPIResult : String → Except String String
  postResult : Int → String → Except String String

/-- An outbound call performed while handling one update. -/
inductive Effect where
  | translitCall : String → Effect
  | post : Int → String → Effect
deriving DecidableEq

/-- `sendToClient` from `api/index.go`, returning its `(string, error)`
pair (`none` for a nil error) together with the trace of outbound calls
it performed. -/
def sendToClient (env : RemoteEnv) (chatID : Int) (incomingText : String) :
    (String × Option String) × List Effect :=
  if incomingText = "/start" then (("", none), [])
  else
    match env.getFarsiAPIResult incomingText with
    | Except.error e => (("", some e), [Effect.translitCall incomingText])
    | Except.ok text =>
      match env.postResult chatID text with
      | Except.error e =>
        (("", some e), [Effect.translitCall incomingText, Effect.post chatID text])
      | Except.ok body =>
        ((body, none), [Effect.translitCall incomingText, Effect.post chatID text])

/-- `parseIncomingRequest` from `api/index.go`.  The JSON decode of the
request body is an external step, so the argument is its outcome: either
a decode error or the decoded `Update`.  The function adds the one
validation the source performs, the `UpdateId == 0` check. -/
def parseIncomingRequest (decoded : Except String Update) : Except String Update :=
  match decoded with
  | Except.error e => Except.error e
  | Except.ok u =>
    if u.UpdateId = 0 then
      Except.error "invalid update id of 0 indicates failure to parse incoming update"
    else Except.ok u

/-- `Handler` from `api/index.go`: parse, then case-fold the message text
and hand it to `sendToClient`.  On a parse failure it returns having
performed no outbound call (`none`, empty trace); otherwise it returns
`sendToClient`'s result and trace. -/
def Handler (env : RemoteEnv) (decoded : Except String Update) :
    Option (String × Option String) × List Effect :=
  match parseIncomingRequest decoded with
  | Except.error _ => (none, [])
  | Except.ok u =>
    let r := sendToClient env u.Message.Chat.ID (goToLower u.Message.Text)
    (some r.1, r.2)

/-- The value-concatenation loop at the end of `getFarsiAPI`
(`for _, v := range result { farsi += v }`): concatenate the values of the
decoded JSON object, taking the entries in the iteration order the Go map
produced them — an order the language leaves unspecified, so it is passed
here explicitly as the list `order`. -/
def concatValues (order : List (String × String)) : String :=
  order.foldl (fun acc kv => acc ++ kv.2) ""

/-- The digraph glyph emitted for a digraph-capable byte followed by `h`. -/
def digraphGlyph (c : Nat) : List Nat :=
  if c = 99 then strBytes "چ"
  else if c = 103 then strBytes "غ"
  else if c = 107 then strBytes "خ"
  else if c = 115 then strBytes "ش"
  else []

/-- The single-letter glyph emitted for a digraph-capable byte not
followed by `h`. -/
def singleGlyph (c : Nat) : List Nat :=
  if c = 99 then strBytes "س"
  else if c = 103 then strBytes "گ"
  else if c = 107 then strBytes "ک"
  else if c = 115 then strBytes "س"
  else []

/-- A fixed oracle environment used by concrete witnesses. -/
def sampleEnv : RemoteEnv :=
  ⟨fun _ => Except.ok "", fun _ _ => Except.ok ""⟩

/-- A fixed message used by concrete witnesses. -/
def sampleMessage : Message :=
  ⟨"Salam", ⟨7⟩, ⟨"", 0⟩, ⟨"", 0⟩, ⟨"", ""⟩⟩

lemma goByteToString_eq_h (b : Nat) : (goByteToString b = strBytes "h") ↔ b = 104 := by
  have hh : strBytes "h" = [104] := by decide
  rw [hh]
  unfold goByteToString
  by_cases hb : b < 128
  · simp [hb]
  · simp [hb]
    omega

lemma peekChar_eq_h (i : Nat) (s : List Nat) :
    (peekChar i s = strBytes "h") ↔ s[i + 1]? = some 104 := by
  unfold peekChar
  by_cases h : i + 1 < s.length
  · rw [dif_pos h, goByteToString_eq_h, List.getElem?_eq_getElem h]
    simp [List.get_eq_getElem]
  · rw [dif_neg h, List.getElem?_eq_none (by omega)]
    constructor
    · intro he
      exact absurd he (by decide)
    · intro hc
      cases hc

lemma isSome_map {α β : Type} (f : α → β) (o : Option α) :
    (o.map f).isSome = o.isSome := by
  cases o <;> rfl

lemma getFarsiAux_bound (s : List Nat) (i c : Nat) (hget : s[i]? = some c) :
    i < s.length := by
  by_contra hlt
  rw [List.getElem?_eq_none (by omega)] at hget
  cases hget

lemma getFarsiAux_default_step (s : List Nat) (i c : Nat)
    (hget : s[i]? = some c) (hne : ¬(97 ≤ c ∧ c ≤ 122)) :
    getFarsiAux s i = (getFarsiAux s (i + 1)).map (fun r => goByteToString c ++ r) := by
  rw [getFarsiAux.eq_def, dif_pos (getFarsiAux_bound s i c hget), hget]
  norm_num [show c ≠ 97 by omega, show c ≠ 98 by omega, show c ≠ 99 by omega,
    show c ≠ 100 by omega, show c ≠ 101 by omega, show c ≠ 102 by omega,
    show c ≠ 103 by omega, show c ≠ 104 by omega, show c ≠ 105 by omega,
    show c ≠ 106 by omega, show c ≠ 107 by omega, show c ≠ 108 by omega,
    show c ≠ 109 by omega, show c ≠ 110 by omega, show c ≠ 111 by omega,
    show c ≠ 112 by omega, show c ≠ 113 by omega, show c ≠ 114 by omega,
    show c ≠ 115 by omega, show c ≠ 116 by omega, show c ≠ 117 by omega,
    show c ≠ 118 by omega, show c ≠ 119 by omega, show c ≠ 120 by omega,
    show c ≠ 121 by omega, show c ≠ 122 by omega]

lemma getFarsiAux_e_step (s : List Nat) (i : Nat) (hget : s[i]? = some 101) :
    getFarsiAux s i = getFarsiAux s (i + 1) := by
  rw [getFarsiAux.eq_def, dif_pos (getFarsiAux_bound s i 101 hget), hget]
  norm_num

set_option maxHeartbeats 2000000 in
lemma getFarsiAux_isSome_aux (n : Nat) :
    ∀ (s : List Nat) (i : Nat), s.length - i ≤ n → (getFarsiAux s i).isSome = true := by
  induction n with
  | zero =>
    intro s i hle
    rw [getFarsiAux.eq_def]
    have hn : ¬ i < s.length := by omega
    simp [hn]
  | succ n ih =>
    intro s i hle
    by_cases hi : i < s.length
    · have hget : s[i]? = some s[i] := List.getElem?_eq_getElem hi
      by_cases hin : 97 ≤ s[i] ∧ s[i] ≤ 122
      · obtain ⟨hl, hr⟩ := hin
        rw [getFarsiAux.eq_def, dif_pos hi, hget]
        generalize s[i] = c at hl hr ⊢
        interval_cases c <;> norm_num
        all_goals first
          | (rw [isSome_map]; exact ih s _ (by omega))
          | exact ih s _ (by omega)
          | (split <;> (rw [isSome_map]; exact ih s _ (by omega)))
      · rw [getFarsiAux_default_step s i s[i] hget hin, isSome_map]
        exact ih s _ (by omega)
    · rw [getFarsiAux.eq_def]
      simp [hi]

/-- Claim C10: every read of the transliteration scan is in bounds:
`peekChar` yields a character exactly when position `index + 1` exists
(and the empty string otherwise), and the scan `getFarsiAux`, whose
cursor read is modelled with optional indexing, never returns `none`. -/
theorem scan_reads_in_bounds :
    (∀ (i : Nat) (s : List Nat), peekChar i s ≠ [] ↔ i + 1 < s.length) ∧
    (∀ (s : List Nat) (i : Nat), (getFarsiAux s i).isSome = true) := by
  constructor
  · intro i s
    unfold peekChar
    by_cases h : i + 1 < s.length
    · rw [dif_pos h]
      unfold goByteToString
      constructor
      · intro _
        exact h
      · intro _
        split <;> simp
    · rw [dif_neg h]
      simp [h]
  · intro s i
    exact getFarsiAux_isSome_aux (s.length - i) s i (Nat.le_refl _)

lemma getFarsiAux_digraph_step (s : List Nat) (i c : Nat)
    (hget : s[i]? = some c) (hmem : c ∈ [99, 103, 107, 115]) :
    getFarsiAux s i =
      if peekChar i s = strBytes "h" then
        (getFarsiAux s (i + 2)).map (fun r => digraphGlyph c ++ r)
      else (getFarsiAux s (i + 1)).map (fun r => singleGlyph c ++ r) := by
  have hi : i < s.length := by
    by_contra hlt
    rw [List.getElem?_eq_none (by omega)] at hget
    cases hget
  rw [getFarsiAux.eq_def, dif_pos hi, hget]
  fin_cases hmem <;> norm_num [digraphGlyph, singleGlyph]

/-- Claim C1: at a position holding a digraph-capable byte (`c`, `g`, `k`,
`s`) the scan emits the digraph glyph and recurses two positions further
when the next byte exists and is `h`, and otherwise emits the single-letter
mapping and recurses one position further; in particular on the inputs
"sh", "gh", "kh", "ch" and "s". -/
theorem digraph_lookahead :
    (∀ (s : List Nat) (i c : Nat), s[i]? = some c → c ∈ [99, 103, 107, 115] →
      (s[i + 1]? = some 104 →
        getFarsiAux s i = (getFarsiAux s (i + 2)).map (fun r => digraphGlyph c ++ r)) ∧
      (s[i + 1]? ≠ some 104 →
        getFarsiAux s i = (getFarsiAux s (i + 1)).map (fun r => singleGlyph c ++ r))) ∧
    getFarsi (strBytes "sh") = strBytes "ش" ∧
    getFarsi (strBytes "gh") = strBytes "غ" ∧
    getFarsi (strBytes "kh") = strBytes "خ" ∧
    getFarsi (strBytes "ch") = strBytes "چ" ∧
    getFarsi (strBytes "s") = strBytes "س" := by
  refine ⟨?_, ?_, ?_, ?_, ?_, ?_⟩
  · intro s i c hget hmem
    rw [getFarsiAux_digraph_step s i c hget hmem]
    constructor
    · intro h104
      rw [if_pos ((peekChar_eq_h i s).mpr h104)]
    · intro h104
      rw [if_neg (fun hp => h104 ((peekChar_eq_h i s).mp hp))]
  all_goals simp [getFarsi, getFarsiAux, peekChar, strBytes, utf8Bytes, goByteToString]

/-- Witness for claim C1 at the concrete input "sha", position 0. -/
theorem digraph_lookahead_witness :
    getFarsiAux (strBytes "sha") 0 =
      (getFarsiAux (strBytes "sha") 2).map (fun r => digraphGlyph 115 ++ r) :=
  (digraph_lookahead.1 (strBytes "sha") 0 115 (by decide) (by decide)).1 (by decide)

/-- Claim C4: the letter `e` is silent: at a position holding `e` the scan
consumes it, emits nothing and advances by one; in particular the inputs
"e" and "" transliterate to "". -/
theorem silent_e :
    (∀ (s : List Nat) (i : Nat), s[i]? = some 101 →
      getFarsiAux s i = getFarsiAux s (i + 1)) ∧
    getFarsi (strBytes "e") = strBytes "" ∧
    getFarsi (strBytes "") = strBytes "" := by
  refine ⟨fun s i hget => getFarsiAux_e_step s i hget, ?_, ?_⟩ <;>
    simp [getFarsi, getFarsiAux, peekChar, strBytes, utf8Bytes, goByteToString]

/-- Witness for claim C4 at the concrete input "e", position 0. -/
theorem silent_e_witness :
    getFarsiAux (strBytes "e") 0 = getFarsiAux (strBytes "e") 1 :=
  silent_e.1 (strBytes "e") 0 (by decide)

/-- Claim C5: the input "salam" transliterates to "سالام". -/
theorem salam_transliteration : getFarsi (strBytes "salam") = strBytes "سالام" := by
  simp [getFarsi, getFarsiAux, peekChar, strBytes, utf8Bytes, goByteToString]

/-- Claim C2 (refuted by the code): a second pass is not the identity on
the first pass's output.  The default arm appends `string(finglish[i])`,
which re-encodes every non-ASCII byte of the emitted glyphs as the UTF-8
of the code point equal to that byte value, so `getFarsi` is not
idempotent: already on input "a" the second pass turns "ا" into "Ø§". -/
theorem getFarsi_not_idempotent :
    getFarsi (strBytes "a") = strBytes "ا" ∧
    getFarsi (getFarsi (strBytes "a")) = strBytes "Ø§" ∧
    getFarsi (getFarsi (strBytes "a")) ≠ getFarsi (strBytes "a") := by
  refine ⟨?_, ?_, ?_⟩ <;>
    simp [getFarsi, getFarsiAux, peekChar, strBytes, utf8Bytes, goByteToString]

/-- Claim C3 (refuted by the code for non-ASCII characters): at a byte
with no table entry the scan emits `string(b)` — the Go conversion
`goByteToString` — and advances by one.  For ASCII bytes this is the byte
unchanged ("5!" and "A" pass through), but a target-script glyph is not
echoed: each of its bytes is re-encoded, so "ا" becomes "Ø§". -/
theorem passthrough_bytes :
    (∀ (s : List Nat) (i b : Nat), s[i]? = some b → ¬(97 ≤ b ∧ b ≤ 122) →
      getFarsiAux s i = (getFarsiAux s (i + 1)).map (fun r => goByteToString b ++ r)) ∧
    getFarsi (strBytes "5!") = strBytes "5!" ∧
    getFarsi (strBytes "A") = strBytes "A" ∧
    getFarsi (strBytes "ا") = strBytes "Ø§" ∧
    getFarsi (strBytes "ا") ≠ strBytes "ا" := by
  refine ⟨fun s i b hget hb => getFarsiAux_default_step s i b hget hb, ?_, ?_, ?_, ?_⟩ <;>
    simp [getFarsi, getFarsiAux, peekChar, strBytes, utf8Bytes, goByteToString]

/-- Witness for claim C3 at the concrete input "5", position 0. -/
theorem passthrough_bytes_witness :
    getFarsiAux (strBytes "5") 0 =
      (getFarsiAux (strBytes "5") 1).map (fun r => goByteToString 53 ++ r) :=
  passthrough_bytes.1 (strBytes "5") 0 53 (by decide) (by decide)

/-- Claim C6: when the case-folded message text is the reserved literal
"/start", `sendToClient` performs no transliteration call and no outbound
post, and returns an empty body with a nil error. -/
theorem start_short_circuit (env : RemoteEnv) (chatID : Int) (text : String)
    (h : goToLower text = "/start") :
    sendToClient env chatID (goToLower text) = (("", none), []) := by
  rw [h]
  simp [sendToClient]

/-- Witness for claim C6 at the concrete text "/START". -/
theorem start_short_circuit_witness :
    sendToClient ⟨fun _ => Except.ok "", fun _ _ => Except.ok ""⟩ 7 (goToLower "/START") =
      (("", none), []) :=
  start_short_circuit ⟨fun _ => Except.ok "", fun _ _ => Except.ok ""⟩ 7 "/START" (by decide)

/-- Claim C7: a decoded payload with `UpdateId = 0` fails the parse with
the invalid-update error and the handler performs no transliteration call
and no outbound send; a decoded payload with nonzero `UpdateId` passes
the parse unchanged, with no further validation. -/
theorem updateId_zero_rejected (env : RemoteEnv) (u : Update) :
    (u.UpdateId = 0 →
      parseIncomingRequest (Except.ok u) =
        Except.error "invalid update id of 0 indicates failure to parse incoming update" ∧
      Handler env (Except.ok u) = (none, [])) ∧
    (u.UpdateId ≠ 0 → parseIncomingRequest (Except.ok u) = Except.ok u) := by
  constructor
  · intro h0
    have hp : parseIncomingRequest (Except.ok u) =
        Except.error "invalid update id of 0 indicates failure to parse incoming update" := by
      simp [parseIncomingRequest, h0]
    exact ⟨hp, by simp [Handler, hp]⟩
  · intro h0
    simp [parseIncomingRequest, h0]

/-- Witness for claim C7 at concrete updates with ids 0 and 5. -/
theorem updateId_zero_rejected_witness :
    (parseIncomingRequest (Except.ok ⟨0, sampleMessage⟩) =
        Except.error "invalid update id of 0 indicates failure to parse incoming update" ∧
      Handler sampleEnv (Except.ok ⟨0, sampleMessage⟩) = (none, [])) ∧
    parseIncomingRequest (Except.ok ⟨5, sampleMessage⟩) = Except.ok ⟨5, sampleMessage⟩ :=
  ⟨(updateId_zero_rejected sampleEnv ⟨0, sampleMessage⟩).1 rfl,
    (updateId_zero_rejected sampleEnv ⟨5, sampleMessage⟩).2 (by decide)⟩

lemma toNat_ofNatAux (n : Nat) (h : n.isValidChar) :
    (Char.ofNatAux n h).toNat = n := rfl

lemma lowerChar_not_upper (c : Char) :
    ¬(65 ≤ (lowerChar c).toNat ∧ (lowerChar c).toNat ≤ 90) := by
  unfold lowerChar
  split
  · rename_i h
    rw [toNat_ofNatAux]
    omega
  · rename_i h
    exact h

lemma lowerChar_idem (c : Char) : lowerChar (lowerChar c) = lowerChar c := by
  rw [lowerChar.eq_def, dif_neg (lowerChar_not_upper c)]

lemma goToLower_idem (s : String) : goToLower (goToLower s) = goToLower s := by
  unfold goToLower
  congr 1
  rw [show (String.mk (s.data.map lowerChar)).data = s.data.map lowerChar from rfl,
    List.map_map]
  exact List.map_congr_left (fun a _ => lowerChar_idem a)

/-- Claim C8: case-folding precedes transliteration: the handler hands
`sendToClient` (and so the transliteration step) the lowercase form of the
message text, so handling an update equals handling the same update with
its text already all-lowercase. -/
theorem casefold_precedes (env : RemoteEnv) (u : Update) :
    Handler env (Except.ok u) =
      Handler env
        (Except.ok { u with Message := { u.Message with Text := goToLower u.Message.Text } }) := by
  by_cases h0 : u.UpdateId = 0 <;>
    simp [Handler, parseIncomingRequest, h0, goToLower_idem]

/-- Claim C9 (refuted by the code): the text rebuilt from the remote
service's decoded JSON object is not uniquely determined by that object:
the concatenation loop of `getFarsiAPI` follows the iteration order of a
Go map, which the language leaves unspecified, and two valid orders of the
same two-entry object concatenate to different strings. -/
theorem concat_not_deterministic :
    ¬ ∀ (entries o1 o2 : List (String × String)),
        entries.Perm o1 → entries.Perm o2 → concatValues o1 = concatValues o2 := by
  intro hAll
  have h := hAll [("a", "x"), ("b", "y")] [("a", "x"), ("b", "y")] [("b", "y"), ("a", "x")]
    (List.Perm.refl _) (List.Perm.swap ("b", "y") ("a", "x") [])
  exact absurd h (by decide)

/-- Claim C9 (amended): the rebuilt text is determined by the decoded
object only up to the map's unspecified iteration order; it is uniquely
determined whenever the object has at most one entry. -/
theorem concat_deterministic_of_small (entries o1 o2 : List (String × String))
    (hlen : entries.length ≤ 1) (h1 : entries.Perm o1) (h2 : entries.Perm o2) :
    concatValues o1 = concatValues o2 := by
  cases entries with
  | nil =>
    obtain rfl := List.nil_perm.mp h1
    obtain rfl := List.nil_perm.mp h2
    rfl
  | cons x t =>
    cases t with
    | nil =>
      obtain rfl := (List.singleton_perm.mp h1).symm
      obtain rfl := (List.singleton_perm.mp h2).symm
      rfl
    | cons y t2 =>
      simp at hlen

/-- Witness for the amended claim C9 at a concrete one-entry object. -/
theorem concat_deterministic_of_small_witness :
    concatValues [("word", "سلام")] = concatValues [("word", "سلام")] :=
  concat_deterministic_of_small [("word", "سلام")] [("word", "سلام")] [("word", "سلام")]
    (by decide) (List.Perm.refl _) (List.Perm.refl _)
